import Mathlib

/-!
Shallow embedding of the Godot-docs RST→Markdown converter (src/index.ts).

Text is modelled as `List Char`; a document is split into lines on '\x0a'.
JavaScript string/regex operations are embedded as executable structural
functions over `List Char`.  Each definition carries the source construct
it embeds.
-/

namespace GodotDocs

/-- Backtick character (written by code to satisfy source-file constraints). -/
def tick : Char := '\x60'

/-- JS `\s` class restricted to ASCII (the converter only meets ASCII whitespace). -/
def isSpaceC (c : Char) : Bool :=
  c = ' ' || c = '\t' || c = '\n' || c = '\r' || c = '\x0b' || c = '\x0c'

def isLowerC (c : Char) : Bool := 'a' ≤ c && c ≤ 'z'

def isUpperC (c : Char) : Bool := 'A' ≤ c && c ≤ 'Z'

def isDigitC (c : Char) : Bool := '0' ≤ c && c ≤ '9'

def isAlphaC (c : Char) : Bool := isLowerC c || isUpperC c

/-- JS `\w` class: letters, digits, underscore. -/
def isWordC (c : Char) : Bool := isAlphaC c || isDigitC c || c = '_'

/-- JS `String.prototype.trimStart`. -/
def trimL (s : List Char) : List Char := s.dropWhile isSpaceC

/-- Trailing-whitespace removal. -/
def trimR (s : List Char) : List Char := (s.reverse.dropWhile isSpaceC).reverse

/-- JS `String.prototype.trim`. -/
def trimC (s : List Char) : List Char := trimR (trimL s)

/-- JS `content.split('\n')` (note: the empty string splits to one empty line). -/
def splitNL : List Char → List (List Char)
  | [] => [[]]
  | c :: t =>
    if c = '\n' then [] :: splitNL t
    else
      match splitNL t with
      | h :: r => (c :: h) :: r
      | [] => [[c]]

/-- JS `lines.join('\n')`. -/
def joinNL (ls : List (List Char)) : List Char := List.intercalate ['\n'] ls

/-- Strip a literal pattern off the front, returning the remainder. -/
def pfx? : List Char → List Char → Option (List Char)
  | [], s => some s
  | _ :: _, [] => none
  | p :: ps, c :: cs => if c = p then pfx? ps cs else none

/-- JS `String.prototype.startsWith`. -/
def isPfx (p s : List Char) : Bool := (pfx? p s).isSome

/-- JS `String.prototype.includes` (substring containment). -/
def containsSub (p : List Char) : List Char → Bool
  | [] => (pfx? p []).isSome
  | c :: t => (pfx? p (c :: t)).isSome || containsSub p t

/-- `line.length - line.trimStart().length` as used by `filterByLanguage`. -/
def indentOf (l : List Char) : Nat := l.length - (trimL l).length

/-- The converter's language configuration (`'gdscript' | 'csharp' | 'both'`). -/
inductive Lang
  | gdscript
  | csharp
  | both
deriving DecidableEq

/-- `this.config.language === 'gdscript' ? 'gdscript' : 'csharp'` (src line 686). -/
def targetLanguage (lang : Lang) : List Char :=
  if lang = Lang.gdscript then "gdscript".data else "csharp".data

/-- The scanner state of `filterByLanguage` (src lines 654-657). -/
structure FState where
  insideTabsBlock : Bool
  insideTargetCodeTab : Bool
  insideOtherCodeTab : Bool
  tabsDepth : Nat
deriving DecidableEq

def initFState : FState := ⟨false, false, false, 0⟩

/-- One loop iteration of `filterByLanguage` (src lines 659-718): next state and
the optionally emitted line. -/
def stepLine (tgt : List Char) (st : FState) (line : List Char) : FState × Option (List Char) :=
  let trimmed := trimC line
  if trimmed = ".. tabs::".data then
    ({ st with insideTabsBlock := true, tabsDepth := indentOf line }, some line)
  else if st.insideTabsBlock then
    if trimmed ≠ [] ∧ indentOf line ≤ st.tabsDepth ∧ isPfx "..".data trimmed = false then
      ({ st with insideTabsBlock := false, insideTargetCodeTab := false,
                 insideOtherCodeTab := false }, some line)
    else if isPfx ".. code-tab::".data trimmed then
      if containsSub tgt trimmed then
        ({ st with insideTargetCodeTab := true, insideOtherCodeTab := false }, none)
      else
        ({ st with insideTargetCodeTab := false, insideOtherCodeTab := true }, none)
    else if st.insideTargetCodeTab then (st, some line)
    else if st.insideOtherCodeTab then (st, none)
    else if isPfx ".. code-tab::".data trimmed = false then (st, some line)
    else (st, none)
  else (st, some line)

/-- The line loop of `filterByLanguage` over the split lines. -/
def filterLines (tgt : List Char) (st : FState) : List (List Char) → List (List Char)
  | [] => []
  | l :: ls =>
    match stepLine tgt st l with
    | (st2, some out) => out :: filterLines tgt st2 ls
    | (st2, none) => filterLines tgt st2 ls

/-- `filterByLanguage` (src lines 647-721): identity for `'both'`, otherwise the
line scanner over the split/joined text. -/
def filterByLanguage (lang : Lang) (content : String) : String :=
  match lang with
  | Lang.both => content
  | _ =>
    String.mk (joinNL (filterLines (targetLanguage lang) initFState (splitNL content.data)))

/-- The disposition class of an input line under the `filterByLanguage` scanner,
one constructor per branch of the loop body. -/
inductive LineClass
  | tabsDirective
  | blockExit
  | codeTabTarget
  | codeTabOther
  | targetContent
  | otherContent
  | tabsProse
  | tabsStray
  | outside
deriving DecidableEq

/-- Which classes of line the scanner keeps: code-tab directive lines and
non-selected code content are dropped, everything else is pushed. -/
def keepClass : LineClass → Bool
  | LineClass.codeTabTarget => false
  | LineClass.codeTabOther => false
  | LineClass.otherContent => false
  | LineClass.tabsStray => false
  | _ => true

/-- Classify a line by the branch of `stepLine` it takes. -/
def classifyLine (tgt : List Char) (st : FState) (line : List Char) : LineClass :=
  let trimmed := trimC line
  if trimmed = ".. tabs::".data then LineClass.tabsDirective
  else if st.insideTabsBlock then
    if trimmed ≠ [] ∧ indentOf line ≤ st.tabsDepth ∧ isPfx "..".data trimmed = false then
      LineClass.blockExit
    else if isPfx ".. code-tab::".data trimmed then
      if containsSub tgt trimmed then LineClass.codeTabTarget else LineClass.codeTabOther
    else if st.insideTargetCodeTab then LineClass.targetContent
    else if st.insideOtherCodeTab then LineClass.otherContent
    else if isPfx ".. code-tab::".data trimmed = false then LineClass.tabsProse
    else LineClass.tabsStray
  else LineClass.outside

/-- The state after processing one line. -/
def nextState (tgt : List Char) (st : FState) (line : List Char) : FState :=
  (stepLine tgt st line).1

/-- The classes of all lines, threading the scanner state. -/
def classifyLines (tgt : List Char) (st : FState) : List (List Char) → List LineClass
  | [] => []
  | l :: ls => classifyLine tgt st l :: classifyLines tgt (nextState tgt st l) ls

/-- Take a nonempty run of characters satisfying `p` (regex `X+`), with the rest. -/
def span1? (p : Char → Bool) (s : List Char) : Option (List Char × List Char) :=
  match s.span p with
  | (a, r) => if a = [] then none else some (a, r)

/-- Regex `[a-zA-Z_][a-zA-Z0-9_]*`: an identifier and the rest of the input. -/
def ident? : List Char → Option (List Char × List Char)
  | [] => none
  | c :: t =>
    if isAlphaC c || c = '_' then
      match t.span isWordC with
      | (rest, r) => some (c :: rest, r)
    else none

/-- A property record `{type, name, defaultValue}` (src lines 502, 525-528). -/
structure PropRecord where
  type : List Char
  name : List Char
  defaultValue : Option (List Char)
deriving DecidableEq

/-- The optional group `(?:\s*=\s*` + backtick + `([^` + backtick + `]+)` + backtick + `)?`
of the property regex: tried greedily, yields the captured default or nothing. -/
def optDefault (s : List Char) : Option (List Char) :=
  match (s.span isSpaceC).2 with
  | '=' :: r2 =>
    match (r2.span isSpaceC).2 with
    | c :: r4 =>
      if c = tick then
        match span1? (fun d => d != tick) r4 with
        | some (dv, r5) =>
          match r5 with
          | d :: _ => if d = tick then some dv else none
          | [] => none
        | none => none
      else none
    | [] => none
  | _ => none

/-- The property-declaration regex of `extractPropertiesTable` (src line 525):
`^(\w+(?:\d+D?)?)\s+\*\*([a-zA-Z_][a-zA-Z0-9_]*)\*\*` followed by the optional
backticked default.  The first group reduces to a maximal `\w+` run (the
optional `\d+D?` tail is absorbed by the greedy `\w+`). -/
def propertyMatch (line : List Char) : Option PropRecord := do
  let (ty, r1) ← span1? isWordC line
  let (_, r2) ← span1? isSpaceC r1
  let r3 ← pfx? "**".data r2
  let (nm, r4) ← ident? r3
  let r5 ← pfx? "**".data r4
  some ⟨ty, nm, optDefault r5⟩

/-- Stop predicate of the property scan (src line 520):
`line.startsWith('## ') && line !== '## Property Descriptions'` on the trimmed line. -/
def propsStop (tl : List Char) : Bool :=
  isPfx "## ".data tl && decide (tl ≠ "## Property Descriptions".data)

/-- The record-collection loop of `extractPropertiesTable` (src lines 516-530). -/
def collectProps : List (List Char) → List PropRecord
  | [] => []
  | l :: t =>
    let tl := trimC l
    if propsStop tl then []
    else
      match propertyMatch tl with
      | some r => r :: collectProps t
      | none => collectProps t

/-- Scan for the first line trimming to `target`, returning the lines after it
(src lines 505-511 and 551-557). -/
def findAfterHeading (target : List Char) : List (List Char) → Option (List (List Char))
  | [] => none
  | l :: t => if trimC l = target then some t else findAfterHeading target t

def propsHeader : List Char :=
  "| Type | Property | Default |\n|------|----------|---------|".data

/-- One table row (src lines 536-539); a missing default renders as ''. -/
def renderPropRow (r : PropRecord) : List Char :=
  "| ".data ++ r.type ++ " | **".data ++ r.name ++ "** | ".data ++
    r.defaultValue.getD [] ++ " |".data

/-- `extractPropertiesTable` (src lines 501-542). -/
def extractPropertiesTable (lines : List (List Char)) (startIndex : Nat) : Option (List Char) :=
  match findAfterHeading "## Property Descriptions".data (lines.drop startIndex) with
  | none => none
  | some tail =>
    let props := collectProps tail
    if props = [] then none
    else some (joinNL (propsHeader :: props.map renderPropRow))

/-- A method record `{returnType, signature}` (src lines 548, 573-576). -/
structure MethodRecord where
  returnType : List Char
  signature : List Char
deriving DecidableEq

/-- `returnType.replace(/\s*\(.*?\)\s*/, '').trim()` (src line 574): remove the
first parenthesized group together with the whitespace around it, then trim.
With no `(`, or no `)` after the first `(`, the replace is a no-op. -/
def cleanReturnType (rt : List Char) : List Char :=
  match rt.span (fun c => c != '(') with
  | (before, r) =>
    match r with
    | [] => trimC rt
    | _ :: afterOpen =>
      match afterOpen.span (fun c => c != ')') with
      | (_, r2) =>
        match r2 with
        | [] => trimC rt
        | _ :: afterClose =>
          trimC ((before.reverse.dropWhile isSpaceC).reverse ++
                 afterClose.dropWhile isSpaceC)

/-- The method-declaration regex of `extractMethodsTable` (src line 571):
backtic-quoted return type, `\s+`, bold name, `\s*`, parenthesized parameters;
the emitted record applies `cleanReturnType` (default `void`) and renders the
signature `**name**(params)` (src lines 573-576). -/
def methodMatch (line : List Char) : Option MethodRecord :=
  match line with
  | [] => none
  | c :: r1 =>
    if c = tick then
      match span1? (fun d => d != tick) r1 with
      | none => none
      | some (rt, r2) =>
        match r2 with
        | [] => none
        | c2 :: r3 =>
          if c2 = tick then do
            let (_, r4) ← span1? isSpaceC r3
            let r5 ← pfx? "**".data r4
            let (nm, r6) ← ident? r5
            let r7 ← pfx? "**".data r6
            match (r7.span isSpaceC).2 with
            | '(' :: r9 =>
              match r9.span (fun d => d != ')') with
              | (ps, r10) =>
                match r10 with
                | ')' :: _ =>
                  let crt := cleanReturnType rt
                  some ⟨if crt = [] then "void".data else crt,
                        "**".data ++ nm ++ "**(".data ++ ps ++ ")".data⟩
                | _ => none
            | _ => none
          else none
    else none

/-- Stop predicate of the method scan (src line 566). -/
def methodsStop (tl : List Char) : Bool :=
  isPfx "## ".data tl && decide (tl ≠ "## Method Descriptions".data)

/-- The record-collection loop of `extractMethodsTable` (src lines 562-578). -/
def collectMethods : List (List Char) → List MethodRecord
  | [] => []
  | l :: t =>
    let tl := trimC l
    if methodsStop tl then []
    else
      match methodMatch tl with
      | some r => r :: collectMethods t
      | none => collectMethods t

def methodsHeader : List Char :=
  "| Return Type | Method |\n|-------------|--------|".data

def renderMethodRow (m : MethodRecord) : List Char :=
  "| ".data ++ m.returnType ++ " | ".data ++ m.signature ++ " |".data

/-- `extractMethodsTable` (src lines 547-587). -/
def extractMethodsTable (lines : List (List Char)) (startIndex : Nat) : Option (List Char) :=
  match findAfterHeading "## Method Descriptions".data (lines.drop startIndex) with
  | none => none
  | some tail =>
    let methods := collectMethods tail
    if methods = [] then none
    else some (joinNL (methodsHeader :: methods.map renderMethodRow))

/-- The while loop of `reconstructTables` (src lines 456-493): `all` is the full
line array (used for forward extraction), `rest` the lines from index `i` on.
A table, when extracted, is pushed as a single multi-line element surrounded by
empty-line elements, matching the source's `result.push` calls. -/
def reconstructAux (all : List (List Char)) : List (List Char) → Nat → List (List Char)
  | [], _ => []
  | l :: rest, i =>
    if trimC l = "## Properties".data ∧
        all[i + 1]?.map trimC = some "## Methods".data then
      match extractPropertiesTable all i with
      | some tbl => l :: [] :: tbl :: [] :: reconstructAux all rest (i + 1)
      | none => l :: reconstructAux all rest (i + 1)
    else if trimC l = "## Methods".data ∧
        all[i + 1]?.map trimC = some "## Property Descriptions".data then
      match extractMethodsTable all i with
      | some tbl => l :: [] :: tbl :: [] :: reconstructAux all rest (i + 1)
      | none => l :: reconstructAux all rest (i + 1)
    else l :: reconstructAux all rest (i + 1)

/-- `reconstructTables` at the line level. -/
def reconstructLines (lines : List (List Char)) : List (List Char) :=
  reconstructAux lines lines 0

/-- `reconstructTables` (src lines 451-496): split, loop, join. -/
def reconstructTables (content : List Char) : List Char :=
  joinNL (reconstructLines (splitNL content))

/-- Whether two consecutive lines are an empty-section heading pair that
`reconstructTables` reacts to. -/
def adjPair (a b : List Char) : Bool :=
  (decide (trimC a = "## Properties".data) && decide (trimC b = "## Methods".data)) ||
  (decide (trimC a = "## Methods".data) && decide (trimC b = "## Property Descriptions".data))

/-- Whether some consecutive line pair is a heading pair. -/
def hasAdjacentPair : List (List Char) → Bool
  | a :: b :: t => adjPair a b || hasAdjacentPair (b :: t)
  | _ => false

/-- Modelled from the spec: "a section is empty precisely when its heading line
is immediately followed (next non-blank line) by the next heading" - true iff
the first non-blank line after index `i` trims to `target`. -/
def specNextNonBlankIsHeading (lines : List (List Char)) (i : Nat) (target : List Char) : Bool :=
  match ((lines.drop (i + 1)).dropWhile (fun l => decide (trimC l = []))) with
  | t :: _ => decide (trimC t = target)
  | [] => false

/-! ### The `cleanupForLLM` cascade

Each JS `String.prototype.replace(regex, rep)` with a global regex is embedded
as a left-to-right scan: at each position a matcher either recognizes the
regex at that position (returning the replacement text and the remaining
input after the match) or fails, in which case the scan emits one character
and moves on.  Anchored (`^`, flag `m`) patterns additionally require the
scan position to be at a line start.  Replacement text is not rescanned,
matching JS semantics. -/

/-- True when the last character of `l` is a newline. -/
def lastIsNL (l : List Char) : Bool :=
  match l.getLast? with
  | some c => c = '\n'
  | none => false

/-- Fuel-indexed global-replace scan.  `atLS` is "the current position is at a
line start" (start of string or just after a newline), which is what JS `^`
with flag `m` tests.  A matcher consuming zero characters is treated as a
failed match (none of the embedded patterns can match the empty string). -/
def scanRepl (t : Bool → List Char → Option (List Char × List Char)) :
    Nat → Bool → List Char → List Char
  | 0, _, s => s
  | _ + 1, _, [] => []
  | fuel + 1, atLS, c :: cs =>
    match t atLS (c :: cs) with
    | some (rep, rest) =>
      let n := (c :: cs).length - rest.length
      if n = 0 then c :: scanRepl t fuel (c = '\n') cs
      else rep ++ scanRepl t fuel (lastIsNL ((c :: cs).take n)) rest
    | none => c :: scanRepl t fuel (c = '\n') cs

/-- Run a global replace over the whole input. -/
def pass (t : Bool → List Char → Option (List Char × List Char)) (s : List Char) : List Char :=
  scanRepl t (s.length + 1) true s

/-- Lift an unanchored matcher. -/
def mkTry (m : List Char → Option (List Char × List Char)) :
    Bool → List Char → Option (List Char × List Char) :=
  fun _ s => m s

/-- Lift a line-start-anchored (`^` with flag m) matcher. -/
def mkTryLS (m : List Char → Option (List Char × List Char)) :
    Bool → List Char → Option (List Char × List Char) :=
  fun atLS s => if atLS then m s else none

/-- Literal pattern, fixed replacement. -/
def litRep (pat rep : String) (s : List Char) : Option (List Char × List Char) :=
  (pfx? pat.data s).map (fun r => (rep.data, r))

/-- Drop through the first occurrence of `pat`, returning what follows it. -/
def dropThroughSub (pat : List Char) : List Char → Option (List Char)
  | [] => pfx? pat []
  | c :: t =>
    match pfx? pat (c :: t) with
    | some r => some r
    | none => dropThroughSub pat t

/-- Split `w` at its last newline: `w = a ++ '\n' :: b` with `b` newline-free. -/
def lastNLSplit : List Char → Option (List Char × List Char)
  | [] => none
  | c :: t =>
    match lastNLSplit t with
    | some (a, b) => some (c :: a, b)
    | none => if c = '\n' then some ([], t) else none

/-- Trailing `\s*$` (flag m) at the end of a pattern: greedily consume
whitespace up to a position followed by a newline or the end of input (the
newline itself is not consumed, `$` being zero-width). -/
def tailWsEol (s : List Char) : Option (List Char) :=
  match s.span isSpaceC with
  | (w, r) =>
    match r with
    | [] => some []
    | _ :: _ =>
      match lastNLSplit w with
      | some (_, b) => some ('\n' :: (b ++ r))
      | none => none

/-- The lazily matched `.*?\]\(` tail of the image regex: scan to the first
`](` pair (backtracking past `]`s not followed by `(`, as the lazy dot does),
failing at a line terminator, which `.` cannot match. -/
def findAltEnd : List Char → Option (List Char)
  | ']' :: '(' :: t => some t
  | '\n' :: _ => none
  | '\r' :: _ => none
  | _ :: t => findAltEnd t
  | [] => none

/-- Regex `!\[.*?\]\([^)]*\)` (src line 594): `.` does not match line
terminators, so the bracketed alt text must close with `](` on the same line
(lazy dot with backtracking); the parenthesized target may span lines. -/
def mImageMd (s : List Char) : Option (List Char × List Char) := do
  let r1 ← pfx? "![".data s
  let r2 ← findAltEnd r1
  match r2.span (fun c => c != ')') with
  | (_, r3) =>
    match r3 with
    | ')' :: r4 => some ([], r4)
    | _ => none

/-- Regex `^\s*\.\. figure::.*$` (src line 600): leading `\s*` may also swallow
preceding blank lines, the rest of the line is consumed, its newline is not. -/
def mFigureLine (s : List Char) : Option (List Char × List Char) := do
  let r1 ← pfx? ".. figure::".data (s.dropWhile isSpaceC)
  some ([], (r1.span (fun c => c != '\n')).2)

/-- Regex `^\s*\.\. image::.*$` (src line 601). -/
def mImageLine (s : List Char) : Option (List Char × List Char) := do
  let r1 ← pfx? ".. image::".data (s.dropWhile isSpaceC)
  some ([], (r1.span (fun c => c != '\n')).2)

/-- `removeImageReferences` (src lines 592-604). -/
def removeImageReferences (s : List Char) : List Char :=
  let s := pass (mkTry mImageMd) s
  let s := pass (mkTry (litRep "[image]" "")) s
  let s := pass (mkTryLS mFigureLine) s
  let s := pass (mkTryLS mImageLine) s
  s

/-- Regex `<div[^>]*>[\s\S]*?<\/div>` (src line 342). -/
def mDiv (s : List Char) : Option (List Char × List Char) := do
  let r1 ← pfx? "<div".data s
  match (r1.span (fun c => c != '>')).2 with
  | '>' :: r2 => do
    let r3 ← dropThroughSub "</div>".data r2
    some ([], r3)
  | _ => none

/-- Regex `^\|\|.*$` (src line 345). -/
def mPipePipe (s : List Char) : Option (List Char × List Char) := do
  let r1 ← pfx? "||".data s
  some ([], (r1.span (fun c => c != '\n')).2)

/-- Regex `^\s*\|\s*\|\s*$` (src line 346): the `\s*` parts may span newlines. -/
def mEmptyTableRow (s : List Char) : Option (List Char × List Char) :=
  match (s.span isSpaceC).2 with
  | '|' :: r2 =>
    match (r2.span isSpaceC).2 with
    | '|' :: r4 => do
      let rest ← tailWsEol r4
      some ([], rest)
    | _ => none
  | _ => none

/-- Regex `::::\s*\{[^}]*\}` (src line 349). -/
def mColons4Brace (s : List Char) : Option (List Char × List Char) := do
  let r1 ← pfx? "::::".data s
  match r1.dropWhile isSpaceC with
  | '\x7b' :: r2 =>
    match (r2.span (fun c => c != '\x7d')).2 with
    | '\x7d' :: r3 => some ([], r3)
    | _ => none
  | _ => none

/-- Regex `:::\s*rst-class[^:]*$` (src line 350, flag m): greedy `[^:]*` ends at
the last newline inside the colon-free run, or at the end of input. -/
def mRstClass (s : List Char) : Option (List Char × List Char) := do
  let r1 ← pfx? ":::".data s
  let r2 ← pfx? "rst-class".data (r1.dropWhile isSpaceC)
  match r2.span (fun c => c != ':') with
  | (run, r3) =>
    match r3 with
    | [] => some ([], [])
    | _ :: _ =>
      match lastNLSplit run with
      | some (_, b) => some ([], '\n' :: (b ++ r3))
      | none => none

/-- Regex `:::\s*\w+$` (src line 351, flag m). -/
def mColonsWord (s : List Char) : Option (List Char × List Char) := do
  let r1 ← pfx? ":::".data s
  let (_, r2) ← span1? isWordC (r1.dropWhile isSpaceC)
  match r2 with
  | [] => some ([], [])
  | '\n' :: _ => some ([], r2)
  | _ => none

/-- Regex `\{\.interpreted-text role="[^"]*"\}` (src line 356). -/
def mInterpreted (s : List Char) : Option (List Char × List Char) := do
  let r1 ← pfx? "\x7b.interpreted-text role=\"".data s
  match (r1.span (fun c => c != '"')).2 with
  | '"' :: '\x7d' :: r2 => some ([], r2)
  | _ => none

/-- Regex matching backticked link-glyph references (src line 359). -/
def mLinkGlyph (s : List Char) : Option (List Char × List Char) :=
  match s with
  | c :: g :: '<' :: r1 =>
    if c = tick && g = '🔗' then
      match (r1.span (fun d => d != '>')).2 with
      | '>' :: d :: r2 => if d = tick then some ([], r2) else none
      | _ => none
    else none
  | _ => none

/-- Regex `\{#[^}]*\}` (src line 362). -/
def mBraceHash (s : List Char) : Option (List Char × List Char) := do
  let r1 ← pfx? "\x7b#".data s
  match (r1.span (fun c => c != '\x7d')).2 with
  | '\x7d' :: r2 => some ([], r2)
  | _ => none

/-- Regex `\{\.classref[^}]*\}` (src line 363). -/
def mBraceClassref (s : List Char) : Option (List Char × List Char) := do
  let r1 ← pfx? "\x7b.classref".data s
  match (r1.span (fun c => c != '\x7d')).2 with
  | '\x7d' :: r2 => some ([], r2)
  | _ => none

/-- The qualifier-annotation regexes (src lines 366-368): a literal lead-in,
then a backtick-free run that must end in `)` directly before the closing
backtick. -/
def mQualifier (lead : String) (s : List Char) : Option (List Char × List Char) := do
  let r1 ← pfx? lead.data s
  match r1.span (fun c => c != tick) with
  | (run, r2) =>
    match r2 with
    | c :: r3 =>
      if c = tick ∧ run.getLast? = some ')' then some ([], r3) else none
    | [] => none

/-- Regex `^\s*\.\.\s+\w+::` (src line 371): only the directive prefix is
consumed; the rest of the line survives. -/
def mDirectivePrefix (s : List Char) : Option (List Char × List Char) := do
  let r1 ← pfx? "..".data (s.dropWhile isSpaceC)
  let (_, r2) ← span1? isSpaceC r1
  let (_, r3) ← span1? isWordC r2
  let r4 ← pfx? "::".data r3
  some ([], r4)

/-- Regex `^github_url\s*:\s*hide\s*$` (src line 374, flag m). -/
def mGithubUrl (s : List Char) : Option (List Char × List Char) := do
  let r1 ← pfx? "github_url".data s
  match r1.dropWhile isSpaceC with
  | ':' :: r2 => do
    let r3 ← pfx? "hide".data (r2.dropWhile isSpaceC)
    let rest ← tailWsEol r3
    some ([], rest)
  | _ => none

/-- Regex `^[a-z_]+\s*:\s*[^\n]*$` (src line 375, flag m): the `\s*` after the
colon is greedy and may swallow newlines, so the match can extend into the
following line before `[^\n]*$` finishes it. -/
def mMetaLine (s : List Char) : Option (List Char × List Char) := do
  let (_, r1) ← span1? (fun c => isLowerC c || c = '_') s
  match r1.dropWhile isSpaceC with
  | ':' :: r2 =>
    some ([], ((r2.dropWhile isSpaceC).span (fun c => c != '\n')).2)
  | _ => none

/-- Regex `^-{4,}$` (src line 378, flag m). -/
def mDashes (s : List Char) : Option (List Char × List Char) :=
  match s.span (fun c => c = '-') with
  | (d, r) =>
    if 4 ≤ d.length then
      match r with
      | [] => some ([], [])
      | '\n' :: _ => some ([], r)
      | _ => none
    else none

/-- Regex `^\s*-{4,}\s*$` (src line 379, flag m). -/
def mDashesWs (s : List Char) : Option (List Char × List Char) :=
  match (s.dropWhile isSpaceC).span (fun c => c = '-') with
  | (d, r) =>
    if 4 ≤ d.length then do
      let rest ← tailWsEol r
      some ([], rest)
    else none

/-- Regex `^\s*:\w+:\s*$` (src line 382, flag m). -/
def mColonKey (s : List Char) : Option (List Char × List Char) :=
  match s.dropWhile isSpaceC with
  | ':' :: r1 => do
    let (_, r2) ← span1? isWordC r1
    match r2 with
    | ':' :: r3 => do
      let rest ← tailWsEol r3
      some ([], rest)
    | _ => none
  | _ => none

/-- Regex `^\s*-group\s*$` (src line 383, flag m). -/
def mGroupDash (s : List Char) : Option (List Char × List Char) := do
  let r1 ← pfx? "-group".data (s.dropWhile isSpaceC)
  let rest ← tailWsEol r1
  some ([], rest)

/-- Regex for class references (src line 386): replacement is the captured name. -/
def mClassRefUpper (s : List Char) : Option (List Char × List Char) :=
  match s with
  | c :: u :: r1 =>
    if c = tick && isUpperC u then
      match r1.span isWordC with
      | (nm, r2) => do
        let r3 ← pfx? "<class_".data r2
        match (r3.span (fun d => d != '>')).2 with
        | '>' :: d :: r4 => if d = tick then some (u :: nm, r4) else none
        | _ => none
    else none
  | _ => none

/-- Regex for method references with parentheses (src line 387): the angle
target must contain `_method_`; replacement is `name()`. -/
def mMethodRefParens (s : List Char) : Option (List Char × List Char) :=
  match s with
  | c :: a :: r1 =>
    if c = tick && (isLowerC a || a = '_') then
      match r1.span isWordC with
      | (nm, r2) => do
        let r3 ← pfx? "()<class_".data r2
        match r3.span (fun d => d != '>') with
        | (inner, r4) =>
          if containsSub "_method_".data inner then
            match r4 with
            | '>' :: d :: r5 =>
              if d = tick then some ((a :: nm) ++ "()".data, r5) else none
            | _ => none
          else none
    else none
  | _ => none

/-- Regex for method references without parentheses (src line 388):
replacement appends `()`. -/
def mMethodRefBare (s : List Char) : Option (List Char × List Char) :=
  match s with
  | c :: a :: r1 =>
    if c = tick && (isLowerC a || a = '_') then
      match r1.span isWordC with
      | (nm, r2) => do
        let r3 ← pfx? "<class_".data r2
        match r3.span (fun d => d != '>') with
        | (inner, r4) =>
          if containsSub "_method_".data inner then
            match r4 with
            | '>' :: d :: r5 =>
              if d = tick then some ((a :: nm) ++ "()".data, r5) else none
            | _ => none
          else none
    else none
  | _ => none

/-- Regex for other backticked angle references (src line 389): replacement is
the captured word. -/
def mGenericRef (s : List Char) : Option (List Char × List Char) :=
  match s with
  | c :: r1 =>
    if c = tick then do
      let (nm, r2) ← span1? isWordC r1
      match r2 with
      | '<' :: r3 =>
        match (r3.span (fun d => d != '>')).2 with
        | '>' :: d :: r4 => if d = tick then some (nm, r4) else none
        | _ => none
      | _ => none
    else none
  | _ => none

/-- Regex `^(#+)\s*class_([a-zA-Z0-9_]+)$` (src line 392, flag m):
replacement `$1 $2`. -/
def mClassTitle (s : List Char) : Option (List Char × List Char) := do
  let (hs, r1) ← span1? (fun c => c = '#') s
  let r2 ← pfx? "class_".data (r1.dropWhile isSpaceC)
  let (nm, r3) ← span1? isWordC r2
  match r3 with
  | [] => some (hs ++ (' ' :: nm), [])
  | '\n' :: _ => some (hs ++ (' ' :: nm), r3)
  | _ => none

/-- Regex `classref-[\w-]+` (src line 395). -/
def mClassrefWord (s : List Char) : Option (List Char × List Char) := do
  let r1 ← pfx? "classref-".data s
  let (_, r2) ← span1? (fun c => isWordC c || c = '-') r1
  some ([], r2)

/-- Regex `\*\*([^*]+)\*\*\([^)]*\)\s*\{[^}]*\}` (src line 398):
replacement `**$1()**`. -/
def mBoldSigBrace (s : List Char) : Option (List Char × List Char) := do
  let r1 ← pfx? "**".data s
  let (g, r2) ← span1? (fun c => c != '*') r1
  let r3 ← pfx? "**".data r2
  match r3 with
  | '(' :: r4 =>
    match (r4.span (fun c => c != ')')).2 with
    | ')' :: r5 =>
      match r5.dropWhile isSpaceC with
      | '\x7b' :: r6 =>
        match (r6.span (fun c => c != '\x7d')).2 with
        | '\x7d' :: r7 => some ("**".data ++ g ++ "()**".data, r7)
        | _ => none
      | _ => none
    | _ => none
  | _ => none

/-- Regex `(#{1,6}[^\n]*)\n\s*\n(?=\S)` (src line 401): a heading-like line, a
newline, then a whitespace run that ends in a newline followed by a non-space
character (the lookahead is not consumed).  Replacement `$1\n\n`. -/
def mHeadingBlank (s : List Char) : Option (List Char × List Char) :=
  match s with
  | '#' :: _ =>
    match s.span (fun c => c != '\n') with
    | (line, r1) =>
      match r1 with
      | '\n' :: r2 =>
        match r2.span isSpaceC with
        | (w, r3) =>
          match r3 with
          | [] => none
          | _ :: _ =>
            if w.getLast? = some '\n' then some (line ++ "\n\n".data, r3) else none
      | _ => none
  | _ => none

/-- Regex `\n{3,}` → `\n\n` (src lines 404 and 439). -/
def mNewlines3 (s : List Char) : Option (List Char × List Char) :=
  match s.span (fun c => c = '\n') with
  | (nls, r) => if 3 ≤ nls.length then some ("\n\n".data, r) else none

/-- Regex `[ \t]+` → `' '` (src line 407). -/
def mHSpaceRun (s : List Char) : Option (List Char × List Char) :=
  match s.span (fun c => c = ' ' || c = '\t') with
  | (w, r) => if w = [] then none else some ([' '], r)

/-- Regex `^#+\s*$` (src line 410, flag m). -/
def mEmptyHeading (s : List Char) : Option (List Char × List Char) := do
  let (_, r1) ← span1? (fun c => c = '#') s
  let rest ← tailWsEol r1
  some ([], rest)

/-- Regex `(\w)(\*\*\w)` → `$1 $2` (src line 418): both word characters are
consumed by the match. -/
def mBoldSpace (s : List Char) : Option (List Char × List Char) :=
  match s with
  | w1 :: '*' :: '*' :: w2 :: r =>
    if isWordC w1 && isWordC w2 then some ([w1, ' ', '*', '*', w2], r) else none
  | _ => none

/-- Regex `([.!?])([A-Z])` → `$1 $2` (src line 419). -/
def mPunctSpace (s : List Char) : Option (List Char × List Char) :=
  match s with
  | p :: u :: r =>
    if (p = '.' || p = '!' || p = '?') && isUpperC u then
      some ([p, ' ', u], r)
    else none
  | _ => none

/-- Regex matching a backticked lowercase `name()` followed by a space
(src line 422): replacement `$1() ` drops the backticks. -/
def mMethodTickSpace (s : List Char) : Option (List Char × List Char) :=
  match s with
  | c :: a :: r1 =>
    if c = tick && (isLowerC a || a = '_') then
      match r1.span isWordC with
      | (nm, r2) => do
        let r3 ← pfx? "()".data r2
        match r3 with
        | d :: ' ' :: r4 =>
          if d = tick then some ((a :: nm) ++ "() ".data, r4) else none
        | _ => none
    else none
  | _ => none

/-- Regex `^\s*<.*>\s*$` applied to a trimmed line (src line 434): after
optional whitespace a `<`, and the last non-space character is `>`. -/
def isHtmlTagLine (t : List Char) : Bool :=
  match t.dropWhile isSpaceC with
  | '<' :: r =>
    match r.reverse.dropWhile isSpaceC with
    | '>' :: _ => true
    | _ => false
  | _ => false

/-- Regex `^\s*group\s*$` / `^\s*separator\s*$` shape on a trimmed line. -/
def isWsWord (word : String) (t : List Char) : Bool :=
  match pfx? word.data (t.dropWhile isSpaceC) with
  | some r => r.dropWhile isSpaceC = []
  | none => false

/-- The artifact-line filter predicate (src lines 426-435): a line is kept iff
its trimmed form is nonempty and matches none of the artifact patterns.
Note the first conjunct drops every blank line. -/
def keepArtifactLine (line : List Char) : Bool :=
  let t := trimC line
  decide (t ≠ []) &&
  !(decide (t ≠ []) && t.all (fun c => c = '-' || c = ':')) &&
  !(decide (t ≠ []) && t.all (fun c => c = '\x7b' || c = '\x7d')) &&
  !(isWsWord "group" t) &&
  !(isWsWord "separator" t) &&
  !(isPfx "classref-".data (t.dropWhile isSpaceC)) &&
  !(isHtmlTagLine t)

/-- `cleanupForLLM` (src lines 335-446) at the character level: the image
stripping, the main replace chain, the post-processing chain, the artifact
line filter, and the final table reconstruction, in source order. -/
def cleanupChars (content : List Char) : List Char :=
  let s := removeImageReferences content
  let s := pass (mkTry mDiv) s
  let s := pass (mkTryLS mPipePipe) s
  let s := pass (mkTryLS mEmptyTableRow) s
  let s := pass (mkTry mColons4Brace) s
  let s := pass (mkTry mRstClass) s
  let s := pass (mkTry mColonsWord) s
  let s := pass (mkTry (litRep "::::" "")) s
  let s := pass (mkTry (litRep ":::" "")) s
  let s := pass (mkTry mInterpreted) s
  let s := pass (mkTry mLinkGlyph) s
  let s := pass (mkTry mBraceHash) s
  let s := pass (mkTry mBraceClassref) s
  let s := pass (mkTry (mQualifier "`const (This method has no side effects")) s
  let s := pass (mkTry (mQualifier "`static (This method")) s
  let s := pass (mkTry (mQualifier "`virtual (This method")) s
  let s := pass (mkTryLS mDirectivePrefix) s
  let s := pass (mkTryLS mGithubUrl) s
  let s := pass (mkTryLS mMetaLine) s
  let s := pass (mkTryLS mDashes) s
  let s := pass (mkTryLS mDashesWs) s
  let s := pass (mkTryLS mColonKey) s
  let s := pass (mkTryLS mGroupDash) s
  let s := pass (mkTry mClassRefUpper) s
  let s := pass (mkTry mMethodRefParens) s
  let s := pass (mkTry mMethodRefBare) s
  let s := pass (mkTry mGenericRef) s
  let s := pass (mkTryLS mClassTitle) s
  let s := pass (mkTry mClassrefWord) s
  let s := pass (mkTry mBoldSigBrace) s
  let s := pass (mkTry mHeadingBlank) s
  let s := pass (mkTry mNewlines3) s
  let s := pass (mkTry mHSpaceRun) s
  let s := pass (mkTryLS mEmptyHeading) s
  let s := trimC s
  let s := pass (mkTry mBoldSpace) s
  let s := pass (mkTry mPunctSpace) s
  let s := pass (mkTry mMethodTickSpace) s
  let s := joinNL ((splitNL s).filter keepArtifactLine)
  let s := pass (mkTry mNewlines3) s
  let s := trimC s
  reconstructTables s

/-- `cleanupForLLM` on strings. -/
def cleanupForLLM (content : String) : String :=
  String.mk (cleanupChars content.data)

/-- Modelled from the spec: a line of the output "is" a tab-block directive
line when it trims to `.. tabs::`. -/
def hasTabsDirectiveLine (s : String) : Bool :=
  (splitNL s.data).any (fun l => decide (trimC l = ".. tabs::".data))

/-- Modelled from the spec: the language a code-tab is "tagged" with is the
first whitespace-delimited token after the `.. code-tab::` directive (the
spec's CodeTab is "tagged with a language identifier"). -/
def codeTabTag (line : List Char) : Option (List Char) :=
  match pfx? ".. code-tab::".data (trimC line) with
  | some r =>
    match (r.dropWhile isSpaceC).span (fun c => !isSpaceC c) with
    | (tok, _) => if tok = [] then none else some tok
  | none => none

/-- Modelled from the spec: "The return type field strips any trailing
parenthetical annotation" - if the text ends with a parenthesized group,
remove it and trim, otherwise leave the text unchanged. -/
def specStripTrailingParen (rt : List Char) : List Char :=
  match rt.reverse with
  | ')' :: r =>
    match (r.span (fun c => c != '(')) with
    | (_, '(' :: r2) => trimC r2.reverse
    | _ => rt
  | _ => rt

/-! ### The pipeline orchestrator (`convertFilesConcurrently`, src lines 156-186)

Per-document conversion is abstracted as `convert : α → Option String`
(`none` models the caught per-document failure).  The source writes
`results[globalIndex] = markdownContent` only when the content trims
nonempty, leaves the slot unset otherwise, and finally keeps the set slots
in index order.  Concurrency within a batch is modelled by quantifying over
the order in which the per-document writes happen: a schedule is any
permutation of the enumerated input list (batch-sequential schedules are a
special case). -/

/-- The value a document's slot receives: `none` when conversion failed or the
content trims empty (src lines 166-177). -/
def keptValue (r : Option String) : Option String :=
  match r with
  | none => none
  | some md => if trimC md.data = [] then none else some md

/-- One completed conversion writing its slot (src line 168); a `none` result
performs no write. -/
def applyResult (arr : List (Option String)) (i : Nat) (r : Option String) :
    List (Option String) :=
  match keptValue r with
  | none => arr
  | some s => arr.set i (some s)

/-- `convertFilesConcurrently`: run all writes in schedule order over an
initially unset results array, then keep the set slots in index order
(src lines 157, 185). -/
def convertFilesConcurrently {α : Type} (docs : List α) (convert : α → Option String)
    (order : List (Nat × α)) : List String :=
  (order.foldl (fun arr p => applyResult arr p.1 (convert p.2))
    (List.replicate docs.length none)).filterMap id

/-! ### Lemmas and claim theorems -/

theorem stepLine_snd (tgt : List Char) (st : FState) (line : List Char) :
    (stepLine tgt st line).2 =
      if keepClass (classifyLine tgt st line) then some line else none := by
  simp only [stepLine, classifyLine]
  split_ifs <;> simp_all [keepClass]

theorem nextState_eq (tgt : List Char) (st : FState) (l : List Char) (st2 : FState)
    (o : Option (List Char)) (h : stepLine tgt st l = (st2, o)) :
    nextState tgt st l = st2 := by
  rw [nextState, h]

/-- The scanner emits exactly the lines whose class is kept, in order. -/
theorem filterLines_eq (tgt : List Char) (st : FState) (ls : List (List Char)) :
    filterLines tgt st ls =
      ((ls.zip (classifyLines tgt st ls)).filter (fun p => keepClass p.2)).map Prod.fst := by
  induction ls generalizing st with
  | nil => rfl
  | cons l ls ih =>
    have h := stepLine_snd tgt st l
    rcases hst : stepLine tgt st l with ⟨st2, o⟩
    rw [hst] at h
    have hns : nextState tgt st l = st2 := nextState_eq tgt st l st2 o hst
    have hzip : (l :: ls).zip (classifyLines tgt st (l :: ls)) =
        (l, classifyLine tgt st l) :: ls.zip (classifyLines tgt st2 ls) := by
      simp [classifyLines, hns]
    rw [hzip]
    by_cases hk : keepClass (classifyLine tgt st l) = true
    · simp only [hk, if_true] at h
      rw [List.filter_cons]
      dsimp only
      rw [if_pos hk, List.map_cons]
      simp only [filterLines, hst, h]
      rw [ih st2]
    · simp only [hk, Bool.false_eq_true, if_false] at h
      rw [List.filter_cons]
      dsimp only
      rw [if_neg hk]
      simp only [filterLines, hst, h]
      rw [ih st2]

/-- C10: with the language filter set to no-filtering (`'both'`),
`filterByLanguage` returns its input unchanged. -/
theorem filterByLanguage_both_identity (content : String) :
    filterByLanguage Lang.both content = content := rfl

/-- C2 amended: with the filter set to `gdscript`, exclusivity holds with
respect to the code's substring-based selection, not the directive's
language tag: the scanner's output is exactly the input lines whose
disposition class is kept - in particular no occurrence of a line inside a
non-selected code-tab (`otherContent`, directive not containing the
substring `gdscript`) survives - and every line inside a selected code-tab
(`targetContent`) appears verbatim in the output. -/
theorem filterByLanguage_gdscript_exclusivity (ls : List (List Char)) :
    filterLines (targetLanguage Lang.gdscript) initFState ls =
      ((ls.zip (classifyLines (targetLanguage Lang.gdscript) initFState ls)).filter
        (fun p => keepClass p.2)).map Prod.fst ∧
    keepClass LineClass.otherContent = false ∧
    (∀ p ∈ ls.zip (classifyLines (targetLanguage Lang.gdscript) initFState ls),
      p.2 = LineClass.targetContent →
        p.1 ∈ filterLines (targetLanguage Lang.gdscript) initFState ls) := by
  refine ⟨filterLines_eq _ _ _, rfl, ?_⟩
  intro p hp hcls
  rw [filterLines_eq]
  refine List.mem_map_of_mem Prod.fst (List.mem_filter.mpr ⟨hp, ?_⟩)
  show keepClass p.2 = true
  rw [hcls]
  rfl

/-- Witness for C2 at a concrete two-tab document: the gdscript code line
survives the filter. -/
theorem filterByLanguage_gdscript_exclusivity_witness :
    " var x = 1".data ∈ filterLines (targetLanguage Lang.gdscript) initFState
      [".. tabs::".data, " .. code-tab:: gdscript".data, " var x = 1".data,
       " .. code-tab:: csharp".data, " int x = 1;".data] :=
  (filterByLanguage_gdscript_exclusivity
      [".. tabs::".data, " .. code-tab:: gdscript".data, " var x = 1".data,
       " .. code-tab:: csharp".data, " int x = 1;".data]).2.2
    (" var x = 1".data, LineClass.targetContent) (by decide) rfl

/-- C2 counterexample: a code-tab tagged `csharp` whose directive line also
contains the substring `gdscript` (src line 688 tests
`trimmed.includes(targetLanguage)`, not the tag) is selected by the gdscript
filter, so its csharp content line survives the output - the claimed
tag-based exclusivity is false for the program. -/
theorem filterByLanguage_gdscript_keeps_mislabelled_csharp :
    codeTabTag " .. code-tab:: csharp gdscript-to-csharp".data = some "csharp".data ∧
    classifyLines (targetLanguage Lang.gdscript) initFState
      [".. tabs::".data, " .. code-tab:: csharp gdscript-to-csharp".data,
       " int x = 1;".data] =
      [LineClass.tabsDirective, LineClass.codeTabTarget, LineClass.targetContent] ∧
    " int x = 1;".data ∈ filterLines (targetLanguage Lang.gdscript) initFState
      [".. tabs::".data, " .. code-tab:: csharp gdscript-to-csharp".data,
       " int x = 1;".data] := by
  exact ⟨by decide, by decide, by decide⟩

/-- C5 counterexample: the tab-block directive line `.. tabs::` is pushed to
the output by the scanner (src line 667), so filtering a document consisting
of that single line returns it unchanged - the output contains a tab-block
directive line, contradicting the claim that both kinds of directive line
are removed. -/
theorem filterByLanguage_keeps_tabs_directive :
    hasTabsDirectiveLine (filterByLanguage Lang.gdscript ".. tabs::") = true := by decide

/-- C5 amended: for every selecting filter, code-tab directive lines and
non-selected code content are dropped, but tab-block directive lines
(`.. tabs::`) are kept: the output is exactly the kept-class lines, and the
keep table drops the two code-tab directive classes while keeping the
tab-block directive class. -/
theorem filterByLanguage_drops_code_tabs_only (tgt : List Char) (st : FState)
    (ls : List (List Char)) :
    filterLines tgt st ls =
      ((ls.zip (classifyLines tgt st ls)).filter (fun p => keepClass p.2)).map Prod.fst ∧
    keepClass LineClass.codeTabTarget = false ∧
    keepClass LineClass.codeTabOther = false ∧
    keepClass LineClass.tabsDirective = true :=
  ⟨filterLines_eq tgt st ls, rfl, rfl, rfl⟩

set_option maxRecDepth 10000 in
/-- C1: `cleanupForLLM` is not idempotent, contradicting the spec's
idempotence invariant.  On `a**b**c` the bold-spacing repair rule
(src line 418) rewrites to `a **b**c`; a second application matches again at
`b**c` and yields `a **b **c`. -/
theorem cleanupForLLM_not_idempotent :
    cleanupForLLM (cleanupForLLM "a**b**c") ≠ cleanupForLLM "a**b**c" := by decide

set_option maxRecDepth 10000 in
/-- C4: the horizontal-whitespace collapse (src line 407) is applied inside
fenced code blocks: the double space in the fenced line `a  b` is collapsed
to a single space, so fenced content is not byte-identical to the input,
contradicting the claim. -/
theorem cleanupForLLM_fence_normalized :
    cleanupForLLM "```\na  b\n```" = "```\na b\n```" := by decide

set_option maxRecDepth 10000 in
/-- C7 counterexample: a single blank line (a run shorter than 3) between two
paragraphs is not preserved - the artifact-line filter (src lines 426-435)
drops every blank line, so `a\n\nb` cleans to `a\nb`. -/
theorem cleanupForLLM_drops_paragraph_break :
    cleanupForLLM "a\n\nb" = "a\nb" ∧ ("a\nb" : String) ≠ "a\n\nb" := by
  exact ⟨by decide, by decide⟩

set_option maxRecDepth 10000 in
/-- C7 amended: `cleanupForLLM` does not preserve blank-line runs of any
length: the artifact-line filter keeps only lines with nonempty trimmed
content, and a run of four blank lines likewise cleans to a single newline
with no blank line. -/
theorem cleanupForLLM_blank_lines_removed :
    (∀ (lines : List (List Char)) (l : List Char),
      l ∈ lines.filter keepArtifactLine → trimC l ≠ []) ∧
    cleanupForLLM "a\n\n\n\n\nb" = "a\nb" := by
  constructor
  · intro lines l h
    have hk := (List.mem_filter.mp h).2
    simp only [keepArtifactLine, Bool.and_eq_true, decide_eq_true_eq] at hk
    tauto
  · decide

/-- Witness for C7 amended: the filter-stage statement applied at a concrete
kept line. -/
theorem cleanupForLLM_blank_lines_removed_witness :
    trimC "a".data ≠ [] :=
  cleanupForLLM_blank_lines_removed.1 ["a".data, ([] : List Char)] "a".data (by decide)

/-- When no two consecutive lines form an empty-section heading pair, the
reconstruction loop copies every line unchanged. -/
theorem reconstructAux_of_no_pair (all : List (List Char)) :
    ∀ (rest : List (List Char)) (i : Nat), rest = all.drop i →
      hasAdjacentPair rest = false → reconstructAux all rest i = rest := by
  intro rest
  induction rest with
  | nil => intro i _ _; rfl
  | cons l rest ih =>
    intro i hdrop hpair
    have hdrop2 : all.drop (i + 1) = rest := by
      rw [← List.drop_drop 1 i all, ← hdrop]
      rfl
    have hget : all[i + 1]? = rest.head? := by
      rw [← List.head?_drop, hdrop2]
    cases rest with
    | nil =>
      have hc1 : ¬(trimC l = "## Properties".data ∧
          (all[i + 1]?).map trimC = some "## Methods".data) := by
        rw [hget]
        rintro ⟨-, h⟩
        simp at h
      have hc2 : ¬(trimC l = "## Methods".data ∧
          (all[i + 1]?).map trimC = some "## Property Descriptions".data) := by
        rw [hget]
        rintro ⟨-, h⟩
        simp at h
      simp only [reconstructAux]
      rw [if_neg hc1, if_neg hc2]
    | cons b rest2 =>
      have hadj : adjPair l b = false ∧ hasAdjacentPair (b :: rest2) = false := by
        simpa [hasAdjacentPair, Bool.or_eq_false_iff] using hpair
      have hnp1 : ¬(trimC l = "## Properties".data ∧ trimC b = "## Methods".data) := by
        intro h
        have := hadj.1
        simp [adjPair, h.1, h.2] at this
      have hnp2 : ¬(trimC l = "## Methods".data ∧
          trimC b = "## Property Descriptions".data) := by
        intro h
        have := hadj.1
        simp [adjPair, h.1, h.2] at this
      have hc1 : ¬(trimC l = "## Properties".data ∧
          (all[i + 1]?).map trimC = some "## Methods".data) := by
        rw [hget]
        rintro ⟨h1, h2⟩
        exact hnp1 ⟨h1, by simpa using h2⟩
      have hc2 : ¬(trimC l = "## Methods".data ∧
          (all[i + 1]?).map trimC = some "## Property Descriptions".data) := by
        rw [hget]
        rintro ⟨h1, h2⟩
        exact hnp2 ⟨h1, by simpa using h2⟩
      simp only [reconstructAux]
      rw [if_neg hc1, if_neg hc2]
      exact congrArg (List.cons l) (ih (i + 1) hdrop2.symm hadj.2)

/-- C6 counterexample: in a document whose `## Properties` heading is followed
by a blank line and then `## Methods`, the spec's next-non-blank detection
fires and the Property Descriptions section yields a nonempty table, yet
`reconstructTables` leaves the document unchanged: the literal next line is
inspected, so a blank line prevents detection. -/
theorem reconstructTables_blank_line_prevents :
    specNextNonBlankIsHeading
      (splitNL ("## Properties\n\n## Methods\n\n## Property Descriptions\nVector2 **global_position** = `Vector2(0, 0)`").data)
      0 "## Methods".data = true ∧
    reconstructTables
      ("## Properties\n\n## Methods\n\n## Property Descriptions\nVector2 **global_position** = `Vector2(0, 0)`").data =
      ("## Properties\n\n## Methods\n\n## Property Descriptions\nVector2 **global_position** = `Vector2(0, 0)`").data ∧
    extractPropertiesTable
      (splitNL ("## Properties\n\n## Methods\n\n## Property Descriptions\nVector2 **global_position** = `Vector2(0, 0)`").data)
      0 ≠ none := by
  exact ⟨by decide, by decide, by decide⟩

/-- C6 amended: `reconstructTables` treats a section as empty precisely when
its heading line is immediately followed - literal next line, blank lines
counting as content - by the companion heading: when no consecutive line
pair is such a heading pair, the whole document passes through unchanged. -/
theorem reconstructTables_requires_adjacent_headings (lines : List (List Char))
    (h : hasAdjacentPair lines = false) : reconstructLines lines = lines :=
  reconstructAux_of_no_pair lines lines 0 rfl h

/-- Witness for C6 amended: the blank-separated document passes through
unchanged. -/
theorem reconstructTables_requires_adjacent_headings_witness :
    reconstructLines
      ["## Properties".data, [], "## Methods".data, [], "## Property Descriptions".data,
       "Vector2 **global_position** = `Vector2(0, 0)`".data] =
      ["## Properties".data, [], "## Methods".data, [], "## Property Descriptions".data,
       "Vector2 **global_position** = `Vector2(0, 0)`".data] :=
  reconstructTables_requires_adjacent_headings _ (by decide)

/-- The property-collection loop visits exactly the lines before the first
stop heading and emits one record per pattern-matching line, in order. -/
theorem collectProps_spec (t : List (List Char)) :
    collectProps t = (t.takeWhile (fun l => !propsStop (trimC l))).filterMap
      (fun l => propertyMatch (trimC l)) := by
  induction t with
  | nil => rfl
  | cons l t ih =>
    by_cases h : propsStop (trimC l) = true
    · simp [collectProps, h, List.takeWhile_cons]
    · cases hm : propertyMatch (trimC l) with
      | none => simp [collectProps, h, hm, List.takeWhile_cons, List.filterMap_cons, ih]
      | some r => simp [collectProps, h, hm, List.takeWhile_cons, List.filterMap_cons, ih]

/-- The method-collection loop visits exactly the lines before the first stop
heading and emits one record per pattern-matching line, in order. -/
theorem collectMethods_spec (t : List (List Char)) :
    collectMethods t = (t.takeWhile (fun l => !methodsStop (trimC l))).filterMap
      (fun l => methodMatch (trimC l)) := by
  induction t with
  | nil => rfl
  | cons l t ih =>
    by_cases h : methodsStop (trimC l) = true
    · simp [collectMethods, h, List.takeWhile_cons]
    · cases hm : methodMatch (trimC l) with
      | none => simp [collectMethods, h, hm, List.takeWhile_cons, List.filterMap_cons, ih]
      | some r => simp [collectMethods, h, hm, List.takeWhile_cons, List.filterMap_cons, ih]

/-- C3: within the scanned span of the Property Descriptions section, the
records are exactly the pattern matches of the trimmed lines, one per
matching line in document order (so each matching line contributes exactly
one table row carrying its type/name/default), and the spec's concrete
scenario produces exactly the claimed table row. -/
theorem extractPropertiesTable_completeness :
    (∀ t : List (List Char), collectProps t =
      (t.takeWhile (fun l => !propsStop (trimC l))).filterMap
        (fun l => propertyMatch (trimC l))) ∧
    extractPropertiesTable
      ["## Properties".data, "## Methods".data, "## Property Descriptions".data,
       "Vector2 **global_position** = `Vector2(0, 0)`".data] 0 =
      some ("| Type | Property | Default |\n|------|----------|---------|\n| Vector2 | **global_position** | Vector2(0, 0) |".data) :=
  ⟨collectProps_spec, by decide⟩

/-- C8 counterexample: for the matching line with return type `int (a) b`,
the emitted return type is `intb` - the code removes the first parenthetical
group and the whitespace around it - while stripping a trailing
parenthetical annotation, as the claim states, would leave `int (a) b`
unchanged (it has no trailing parenthetical). -/
theorem extractMethodsTable_strips_inner_paren :
    (methodMatch ("`int (a) b` **m**(x: int)".data)).map (fun r => r.returnType) =
      some "intb".data ∧
    specStripTrailingParen "int (a) b".data = "int (a) b".data ∧
    "intb".data ≠ "int (a) b".data := by
  exact ⟨by decide, by decide, by decide⟩

/-- C8 amended: the emitted return type is the backticked text with its first
parenthetical group (plus surrounding whitespace) removed and trimmed,
defaulting to `void` when empty, and the signature is `**name**(params)`;
the method rows are exactly the pattern matches of the section's lines in
order, and the spec's concrete scenario produces exactly the claimed row. -/
theorem extractMethodsTable_rows :
    (∀ t : List (List Char), collectMethods t =
      (t.takeWhile (fun l => !methodsStop (trimC l))).filterMap
        (fun l => methodMatch (trimC l))) ∧
    extractMethodsTable
      ["## Methods".data, "## Method Descriptions".data,
       "`void (No return value.)` **apply_scale**(ratio: Vector2)".data] 0 =
      some ("| Return Type | Method |\n|-------------|--------|\n| void | **apply_scale**(ratio: Vector2) |".data) :=
  ⟨collectMethods_spec, by decide⟩

theorem length_applyResult (arr : List (Option String)) (i : Nat) (r : Option String) :
    (applyResult arr i r).length = arr.length := by
  unfold applyResult
  cases keptValue r <;> simp

theorem length_foldl_applyResult {α : Type} (convert : α → Option String)
    (order : List (Nat × α)) :
    ∀ arr : List (Option String),
      (order.foldl (fun arr p => applyResult arr p.1 (convert p.2)) arr).length =
        arr.length := by
  induction order with
  | nil => intro arr; rfl
  | cons p order ih =>
    intro arr
    rw [List.foldl_cons, ih, length_applyResult]

/-- A slot whose index never occurs in the schedule is left untouched. -/
theorem getElem?_foldl_not_mem {α : Type} (convert : α → Option String) (j : Nat) :
    ∀ (order : List (Nat × α)) (arr : List (Option String)), j ∉ order.map Prod.fst →
      (order.foldl (fun arr p => applyResult arr p.1 (convert p.2)) arr)[j]? = arr[j]? := by
  intro order
  induction order with
  | nil => intro arr _; rfl
  | cons p order ih =>
    intro arr hj
    simp only [List.map_cons, List.mem_cons] at hj
    push_neg at hj
    rw [List.foldl_cons, ih _ hj.2]
    unfold applyResult
    cases keptValue (convert p.2) with
    | none => rfl
    | some s => exact List.getElem?_set_ne (fun hh => hj.1 hh.symm)

/-- With pairwise-distinct schedule indices, the slot of a scheduled document
ends up holding exactly that document's kept value. -/
theorem getElem?_foldl_mem {α : Type} (convert : α → Option String) (j : Nat) (d : α) :
    ∀ (order : List (Nat × α)) (arr : List (Option String)),
      (order.map Prod.fst).Nodup → (j, d) ∈ order → j < arr.length →
      arr[j]? = some none →
      (order.foldl (fun arr p => applyResult arr p.1 (convert p.2)) arr)[j]? =
        some (keptValue (convert d)) := by
  intro order
  induction order with
  | nil =>
    intro arr _ hmem _ _
    cases hmem
  | cons p order ih =>
    intro arr hnd hmem hlen hj
    rw [List.foldl_cons]
    rcases List.mem_cons.mp hmem with heq | hmem2
    · cases heq.symm
      have hj2 : j ∉ order.map Prod.fst := by
        simp only [List.map_cons, List.nodup_cons] at hnd
        exact hnd.1
      rw [getElem?_foldl_not_mem convert j order _ hj2]
      unfold applyResult
      cases hk : keptValue (convert d) with
      | none =>
        rw [hj]
      | some s =>
        have hset : (arr.set j (some s))[j]? = some (some s) := by
          rw [List.getElem?_set_self']
          simp [List.getElem?_eq_getElem hlen]
        rw [hset]
    · have hjfst : j ∈ order.map Prod.fst := by
        have : Prod.fst (j, d) ∈ order.map Prod.fst := List.mem_map_of_mem Prod.fst hmem2
        exact this
      have hne : p.1 ≠ j := by
        intro hh
        simp only [List.map_cons, List.nodup_cons] at hnd
        exact hnd.1 (hh ▸ hjfst)
      apply ih (applyResult arr p.1 (convert p.2))
      · simp only [List.map_cons, List.nodup_cons] at hnd
        exact hnd.2
      · exact hmem2
      · rw [length_applyResult]
        exact hlen
      · unfold applyResult
        cases keptValue (convert p.2) with
        | none => exact hj
        | some s => rw [List.getElem?_set_ne hne, hj]

/-- For any schedule that is a permutation of the enumerated input, the final
results array equals the per-document kept values in input order. -/
theorem foldl_applyResult_eq_map {α : Type} (docs : List α) (convert : α → Option String)
    (order : List (Nat × α)) (h : order.Perm docs.enum) :
    order.foldl (fun arr p => applyResult arr p.1 (convert p.2))
      (List.replicate docs.length none) =
      docs.map (fun d => keptValue (convert d)) := by
  apply List.ext_getElem?
  intro j
  by_cases hj : j < docs.length
  · have hmem : (j, docs[j]) ∈ docs.enum := by
      have he : docs.enum[j]? = some (j, docs[j]) := by
        rw [List.getElem?_enum, List.getElem?_eq_getElem hj]
        rfl
      exact List.getElem?_mem he
    have hmem2 : (j, docs[j]) ∈ order := h.mem_iff.mpr hmem
    have hnd : (order.map Prod.fst).Nodup := by
      have hp : (order.map Prod.fst).Perm (docs.enum.map Prod.fst) := h.map Prod.fst
      rw [List.enum_map_fst] at hp
      exact hp.nodup_iff.mpr (List.nodup_range _)
    rw [getElem?_foldl_mem convert j (docs[j]) order _ hnd hmem2 (by simp [hj])
      (by simp [List.getElem?_replicate, hj])]
    simp [List.getElem?_eq_getElem hj]
  · have hlen1 : (order.foldl (fun arr p => applyResult arr p.1 (convert p.2))
        (List.replicate docs.length none)).length = docs.length := by
      rw [length_foldl_applyResult]
      simp
    have e1 : (order.foldl (fun arr p => applyResult arr p.1 (convert p.2))
        (List.replicate docs.length none))[j]? = none :=
      List.getElem?_eq_none (by rw [hlen1]; omega)
    have e2 : (docs.map (fun d => keptValue (convert d)))[j]? = none :=
      List.getElem?_eq_none (by simp; omega)
    rw [e1, e2]

/-- C9: for every input list, per-document outcome function and schedule (any
permutation of the enumerated inputs, covering every completion order within
batches), the output equals the input restricted to kept documents in input
order; and a single document's failure removes only that document from the
filterMap, leaving all others in place. -/
theorem convertFilesConcurrently_order_preserved {α : Type} (docs : List α)
    (convert : α → Option String) (order : List (Nat × α)) (h : order.Perm docs.enum) :
    convertFilesConcurrently docs convert order =
      docs.filterMap (fun d => keptValue (convert d)) ∧
    ∀ (pre post : List α) (d : α), keptValue (convert d) = none →
      (pre ++ d :: post).filterMap (fun x => keptValue (convert x)) =
        pre.filterMap (fun x => keptValue (convert x)) ++
          post.filterMap (fun x => keptValue (convert x)) := by
  constructor
  · unfold convertFilesConcurrently
    rw [foldl_applyResult_eq_map docs convert order h]
    simp [List.filterMap_map]
  · intro pre post d hd
    rw [List.filterMap_append]
    simp [List.filterMap_cons, hd]

/-- Witness for C9: three documents, the middle one failing, scheduled in an
order different from the input order; the output keeps the other two in
input order. -/
theorem convertFilesConcurrently_order_preserved_witness :
    convertFilesConcurrently ["docA", "docB", "docC"]
      (fun d => if d = "docB" then none else some d)
      [(2, "docC"), (0, "docA"), (1, "docB")] = ["docA", "docC"] := by
  have h := (convertFilesConcurrently_order_preserved ["docA", "docB", "docC"]
      (fun d => if d = "docB" then none else some d)
      [(2, "docC"), (0, "docA"), (1, "docB")] (by decide)).1
  rw [h]
  decide

end GodotDocs
